import Mathlib

/-!
A shallow embedding of `scaly` (src/index.js): a composition engine that
dispatches an operation call over an ordered list of "layers", each layer
exposing operations as async generator functions.

Modelling conventions:

* A JavaScript value that may be `undefined` is `Option V`; `none` is
  `undefined`, `some v` is a defined value `v`.
* A layer handler (one async generator instance per (layer, op, call)) is
  observed by the engine only at its first drive (`gen.next()`) and, if it
  suspended awaiting the value, at its single resumption (`gen.next(result)`).
  We model exactly these two observation points: `Handler.first` is the
  outcome of the first drive (`Except.error` = the generator body threw;
  `Except.ok (done, value)` mirrors the iterator result object), and
  `Handler.resume` is the outcome of resuming the suspended generator with
  the resolved value (its own return value is discarded by the engine, so we
  keep only whether it threw).
* `layer[op]` is modelled by association-list lookup in the layer's own
  key order (`Object.keys` order); generator functions are truthy, so a
  present key means the `!layer[op]` guard passes.
* Engine-thrown errors carry a `JSError` (constructor name + message), so
  the `TypeError` of the entry point and the `Error` of the unhandled-op
  case stay distinguishable from `[false, e]` results and from handler
  exceptions.
* `Promise.all(pending.map(gen => gen.next(result)))` starts every
  resumption (so every pending handler is resumed exactly once) and rejects
  if any resumption rejects; which rejection wins is timing-dependent in
  JavaScript, and we model it as the first (in pending order) error.
* For verification the call additionally returns its `attemptedLayers`
  array and a trace of observable events (handler first drives and
  resumptions); the accumulation of both is exactly the source's.
-/

namespace Scaly

structure JSError where
  name : String
  message : String
deriving DecidableEq, Repr

/-- One layer-handler instance for a single (layer, operation, call):
its first drive and its resumption behaviour. -/
structure Handler (V E : Type) where
  first : Except E (Bool × Option V)
  resume : V → Except E Unit

/-- A layer: a display identity (`toString()`) and its own enumerable
operations, in key order, each a handler factory taking the call args. -/
structure Layer (A V E : Type) where
  name : String
  ops : List (String × (A → Handler V E))

/-- `Object.keys(layer)`: the layer's own operation names in key order. -/
def opNames {A V E : Type} (L : Layer A V E) : List String :=
  L.ops.map Prod.fst

/-- Observable events of one call: a layer handler being instantiated and
driven to its first suspension, and a pending handler being resumed with a
resolved value. -/
inductive Event (V : Type) where
  | invoked (layerName : String)
  | resumed (layerName : String) (value : V)
deriving DecidableEq, Repr

/-- How a call ends: `[true, v]`, `[false, e]`, an engine-thrown `Error`,
or an uncaught handler exception (a rejected promise). -/
inductive CallResult (V E : Type) where
  | success (value : Option V)
  | failure (error : Option V)
  | thrown (err : JSError)
  | exn (e : E)
deriving DecidableEq, Repr

/-- Result of one call together with its `attemptedLayers` array and the
trace of observable handler events. -/
structure CallTrace (V E : Type) where
  result : CallResult V E
  attempted : List String
  events : List (Event V)
deriving DecidableEq, Repr

/-- `new Set(l)` iteration order: insert at the back unless already present. -/
def insertSet (s : List String) (x : String) : List String :=
  if x ∈ s then s else s ++ [x]

/-- `new Set(layers.reduce((acc, layer) => acc.concat(Object.keys(layer)), []))`,
as the list of the set's elements in iteration (insertion) order. -/
def allOperations {A V E : Type} (layers : List (Layer A V E)) : List String :=
  (layers.foldl (fun acc L => acc ++ opNames L) []).foldl insertSet []

/-- The message of the `Error` thrown when no layer handled the operation. -/
def unhandledMessage (op : String) (attempted : List String) : String :=
  "operation was not handled by any configured layers: " ++ op ++
    " (attempted layers: " ++ String.intercalate ", " attempted ++ ")"

/-- The resumption events produced by `pending.map(gen => gen.next(result))`:
every pending handler is resumed, each exactly once, with the resolved value. -/
def resumeEvents {V E : Type} (v : V) (pending : List (String × Handler V E)) :
    List (Event V) :=
  pending.map (fun p => Event.resumed p.1 v)

/-- The rejection of `Promise.all` over the resumptions, if any: `none` when
every resumption succeeds, otherwise an error some resumption threw (modelled
as the first in pending order). -/
def firstResumeError {V E : Type} (v : V) :
    List (String × Handler V E) → Option E
  | [] => none
  | p :: rest =>
    match p.2.resume v with
    | .error e => some e
    | .ok _ => firstResumeError v rest

/-- The dispatch loop of `DB[op]` (src/index.js lines 17-74), one step per
layer, carrying `attemptedLayers`, `pendingGenerators` and the event trace.
The six alternatives are the source's case analysis: `!layer[op]` skips the
layer; then the first drive either throws, or yields an iterator result
`(done, value)` classified as: terminal defined (propagate to pending, return
`[true, value]` - or reject if a resumption rejects), terminal undefined
(move on, not added to pending), suspended undefined (push to pending),
suspended defined (return `[false, value]`). An exhausted list throws the
unhandled-operation `Error`. -/
def loop {A V E : Type} (op : String) (args : A) :
    List (Layer A V E) → List String → List (String × Handler V E) →
    List (Event V) → CallTrace V E
  | [], attempted, _pending, events =>
    ⟨.thrown ⟨"Error", unhandledMessage op attempted⟩, attempted, events⟩
  | L :: rest, attempted, pending, events =>
    match L.ops.lookup op with
    | none => loop op args rest attempted pending events
    | some factory =>
      match (factory args).first with
      | .error e =>
        ⟨.exn e, attempted ++ [L.name], events ++ [Event.invoked L.name]⟩
      | .ok (true, some v) =>
        match firstResumeError v pending with
        | some e =>
          ⟨.exn e, attempted ++ [L.name],
            events ++ [Event.invoked L.name] ++ resumeEvents v pending⟩
        | none =>
          ⟨.success (some v), attempted ++ [L.name],
            events ++ [Event.invoked L.name] ++ resumeEvents v pending⟩
      | .ok (true, none) =>
        loop op args rest (attempted ++ [L.name]) pending
          (events ++ [Event.invoked L.name])
      | .ok (false, none) =>
        loop op args rest (attempted ++ [L.name])
          (pending ++ [(L.name, factory args)])
          (events ++ [Event.invoked L.name])
      | .ok (false, some e) =>
        ⟨.failure (some e), attempted ++ [L.name],
          events ++ [Event.invoked L.name]⟩

/-- One call of `DB[op](...args)`: the loop started with empty call-local
state. -/
def callOp {A V E : Type} (layers : List (Layer A V E)) (op : String)
    (args : A) : CallTrace V E :=
  loop op args layers [] [] []

/-- The composed object: its operation names (the keys of `DB`, in
`allOperations` order) and the per-operation call behaviour. `call` is only
meaningful for `op` among `ops`; in JavaScript `DB[op]` does not exist for
other names. -/
structure DB (A V E : Type) where
  ops : List String
  call : String → A → CallTrace V E

/-- The argument of the module entry point: either an array of layers or
any non-array value (all non-arrays take the same `Array.isArray` branch). -/
inductive JSInput (A V E : Type) where
  | array (layers : List (Layer A V E))
  | nonArray

/-- `module.exports = layers => ...` (src/index.js lines 1-79): throw a
`TypeError` on non-array input, otherwise build `DB`. -/
def scaly {A V E : Type} : JSInput A V E → Except JSError (DB A V E)
  | .nonArray => .error ⟨"TypeError", "layers must be an array"⟩
  | .array layers =>
    .ok ⟨allOperations layers, fun op args => callOp layers op args⟩

/-- The names pushed to `attemptedLayers` by the layers of `pre` that pass
the `!layer[op]` guard, in order. -/
def attemptedOf {A V E : Type} (op : String) (pre : List (Layer A V E)) :
    List String :=
  pre.filterMap (fun L =>
    match L.ops.lookup op with
    | none => none
    | some _ => some L.name)

/-- The first-drive events generated by the layers of `pre` that implement
`op`, in order. -/
def invokedOf {A V E : Type} (op : String) (pre : List (Layer A V E)) :
    List (Event V) :=
  pre.filterMap (fun L =>
    match L.ops.lookup op with
    | none => none
    | some _ => some (Event.invoked L.name))

/-- The `pendingGenerators` entries contributed by the layers of `pre`:
exactly those whose first drive is suspended with no payload. -/
def pendingOf {A V E : Type} (op : String) (args : A)
    (pre : List (Layer A V E)) : List (String × Handler V E) :=
  pre.filterMap (fun L =>
    match L.ops.lookup op with
    | none => none
    | some f =>
      match (f args).first with
      | .ok (false, none) => some (L.name, f args)
      | _ => none)

/-- A layer lets the dispatch walk continue past it for this call: it lacks
the operation, or its first drive is terminal-undefined (opt out) or
suspended-undefined (awaiting the value). -/
def skipsOp {A V E : Type} (op : String) (args : A) (L : Layer A V E) : Prop :=
  match L.ops.lookup op with
  | none => True
  | some f =>
    (f args).first = .ok (true, none) ∨ (f args).first = .ok (false, none)

/-- The layer names of the first-drive events of a trace, in order. -/
def invokedNames {V : Type} (events : List (Event V)) : List String :=
  events.filterMap (fun e =>
    match e with
    | .invoked n => some n
    | _ => none)

/-- The (layer name, value) pairs of the resumption events of a trace,
in order. -/
def resumedPairs {V : Type} (events : List (Event V)) : List (String × V) :=
  events.filterMap (fun e =>
    match e with
    | .resumed n v => some (n, v)
    | _ => none)

/-- Deduplication keeping the first occurrence of each element, in order:
the spec's words for the operation-name aggregation ("the union across all
layers, deduplicated, first-seen order preserved"), used to compare against
the source's `allOperations`. -/
def specDedupFirst : List String → List String
  | [] => []
  | x :: xs => x :: specDedupFirst (xs.filter (fun y => y != x))
termination_by l => l.length
decreasing_by
  simp only [List.length_cons]
  exact Nat.lt_succ_of_le (List.length_filter_le _ _)

/-! Concrete layers (args `Nat`, values `Nat`, exceptions `String`) used to
instantiate theorems on closed inputs. -/

/-- A layer whose `get` resolves the value `7` at its first drive. -/
def storeLayer : Layer Nat Nat String :=
  ⟨"store", [("get", fun _ => ⟨.ok (true, some 7), fun _ => .ok ()⟩)]⟩

/-- A layer whose `get` suspends awaiting the value; its resumption
succeeds. -/
def cacheLayer : Layer Nat Nat String :=
  ⟨"cache", [("get", fun _ => ⟨.ok (false, none), fun _ => .ok ()⟩)]⟩

/-- A layer whose `get` suspends awaiting the value and throws "boom" when
resumed. -/
def badCacheLayer : Layer Nat Nat String :=
  ⟨"badcache", [("get", fun _ => ⟨.ok (false, none), fun _ => .error "boom"⟩)]⟩

/-- A layer whose `get` opts out (terminal undefined) at its first drive. -/
def optOutLayer : Layer Nat Nat String :=
  ⟨"optout", [("get", fun _ => ⟨.ok (true, none), fun _ => .ok ()⟩)]⟩

/-- A layer whose `get` yields the defined error payload `5`. -/
def errorLayer : Layer Nat Nat String :=
  ⟨"auth", [("get", fun _ => ⟨.ok (false, some 5), fun _ => .ok ()⟩)]⟩

/-- A layer whose `get` throws "crash" at its first drive. -/
def throwLayer : Layer Nat Nat String :=
  ⟨"crasher", [("get", fun _ => ⟨.error "crash", fun _ => .ok ()⟩)]⟩

/-- A layer exposing no operations at all. -/
def inertLayer : Layer Nat Nat String :=
  ⟨"inert", []⟩

/-! Helper lemmas. -/

theorem attemptedOf_nil {A V E : Type} (op : String) :
    attemptedOf op ([] : List (Layer A V E)) = [] := rfl

theorem invokedOf_nil {A V E : Type} (op : String) :
    invokedOf op ([] : List (Layer A V E)) = ([] : List (Event V)) := rfl

theorem pendingOf_nil {A V E : Type} (op : String) (args : A) :
    pendingOf op args ([] : List (Layer A V E)) = [] := rfl

theorem attemptedOf_cons_absent {A V E : Type} (op : String)
    (L : Layer A V E) (pre : List (Layer A V E))
    (h : L.ops.lookup op = none) :
    attemptedOf op (L :: pre) = attemptedOf op pre := by
  simp [attemptedOf, List.filterMap_cons, h]

theorem attemptedOf_cons_present {A V E : Type} (op : String)
    (L : Layer A V E) (pre : List (Layer A V E)) (f : A → Handler V E)
    (h : L.ops.lookup op = some f) :
    attemptedOf op (L :: pre) = L.name :: attemptedOf op pre := by
  simp [attemptedOf, List.filterMap_cons, h]

theorem invokedOf_cons_absent {A V E : Type} (op : String)
    (L : Layer A V E) (pre : List (Layer A V E))
    (h : L.ops.lookup op = none) :
    invokedOf op (L :: pre) = (invokedOf op pre : List (Event V)) := by
  simp [invokedOf, List.filterMap_cons, h]

theorem invokedOf_cons_present {A V E : Type} (op : String)
    (L : Layer A V E) (pre : List (Layer A V E)) (f : A → Handler V E)
    (h : L.ops.lookup op = some f) :
    invokedOf op (L :: pre) =
      (Event.invoked L.name : Event V) :: invokedOf op pre := by
  simp [invokedOf, List.filterMap_cons, h]

theorem pendingOf_cons_absent {A V E : Type} (op : String) (args : A)
    (L : Layer A V E) (pre : List (Layer A V E))
    (h : L.ops.lookup op = none) :
    pendingOf op args (L :: pre) = pendingOf op args pre := by
  simp [pendingOf, List.filterMap_cons, h]

theorem pendingOf_cons_optout {A V E : Type} (op : String) (args : A)
    (L : Layer A V E) (pre : List (Layer A V E)) (f : A → Handler V E)
    (h : L.ops.lookup op = some f)
    (hfst : (f args).first = .ok (true, none)) :
    pendingOf op args (L :: pre) = pendingOf op args pre := by
  simp [pendingOf, List.filterMap_cons, h, hfst]

theorem pendingOf_cons_suspends {A V E : Type} (op : String) (args : A)
    (L : Layer A V E) (pre : List (Layer A V E)) (f : A → Handler V E)
    (h : L.ops.lookup op = some f)
    (hfst : (f args).first = .ok (false, none)) :
    pendingOf op args (L :: pre) = (L.name, f args) :: pendingOf op args pre := by
  simp [pendingOf, List.filterMap_cons, h, hfst]

/-- Walking a block of layers that all pass control onward (absent, opted
out, or suspended awaiting the value) adds exactly their attempted names,
pending entries and first-drive events, then continues with the rest. -/
theorem loop_skips {A V E : Type} (op : String) (args : A)
    (pre : List (Layer A V E)) :
    ∀ (rest : List (Layer A V E)) (att : List String)
      (pend : List (String × Handler V E)) (ev : List (Event V)),
      (∀ L ∈ pre, skipsOp op args L) →
      loop op args (pre ++ rest) att pend ev =
        loop op args rest (att ++ attemptedOf op pre)
          (pend ++ pendingOf op args pre) (ev ++ invokedOf op pre) := by
  induction pre with
  | nil => intro rest att pend ev _; simp [attemptedOf_nil, pendingOf_nil, invokedOf_nil]
  | cons L pre ih =>
    intro rest att pend ev h
    have hL : skipsOp op args L := h L (List.mem_cons_self L pre)
    have hpre : ∀ M ∈ pre, skipsOp op args M :=
      fun M hM => h M (List.mem_cons_of_mem L hM)
    cases hlk : L.ops.lookup op with
    | none =>
      rw [List.cons_append]
      simp only [loop, hlk]
      rw [ih rest att pend ev hpre, attemptedOf_cons_absent op L pre hlk,
        pendingOf_cons_absent op args L pre hlk, invokedOf_cons_absent op L pre hlk]
    | some f =>
      simp only [skipsOp, hlk] at hL
      rw [List.cons_append]
      cases hL with
      | inl hfst =>
        simp only [loop, hlk, hfst]
        rw [ih rest (att ++ [L.name]) pend (ev ++ [Event.invoked L.name]) hpre,
          attemptedOf_cons_present op L pre f hlk,
          pendingOf_cons_optout op args L pre f hlk hfst,
          invokedOf_cons_present op L pre f hlk]
        simp [List.append_assoc]
      | inr hfst =>
        simp only [loop, hlk, hfst]
        rw [ih rest (att ++ [L.name]) (pend ++ [(L.name, f args)])
            (ev ++ [Event.invoked L.name]) hpre,
          attemptedOf_cons_present op L pre f hlk,
          pendingOf_cons_suspends op args L pre f hlk hfst,
          invokedOf_cons_present op L pre f hlk]
        simp [List.append_assoc]

theorem invokedNames_append {V : Type} (a b : List (Event V)) :
    invokedNames (a ++ b) = invokedNames a ++ invokedNames b := by
  simp [invokedNames, List.filterMap_append]

theorem invokedNames_resumeEvents {V E : Type} (v : V)
    (pend : List (String × Handler V E)) :
    invokedNames (resumeEvents v pend) = [] := by
  induction pend with
  | nil => rfl
  | cons p pend ih => simp [resumeEvents, invokedNames, List.filterMap_cons, ih]

theorem invokedNames_singleton {V : Type} (n : String) :
    invokedNames ([Event.invoked n] : List (Event V)) = [n] := rfl

theorem invokedNames_cons_invoked {V : Type} (n : String) (l : List (Event V)) :
    invokedNames (Event.invoked n :: l) = n :: invokedNames l := by
  simp [invokedNames, List.filterMap_cons]

theorem invokedNames_cons_resumed {V : Type} (n : String) (v : V)
    (l : List (Event V)) :
    invokedNames (Event.resumed n v :: l) = invokedNames l := by
  simp [invokedNames, List.filterMap_cons]

theorem resumedPairs_cons_invoked {V : Type} (n : String) (l : List (Event V)) :
    resumedPairs (Event.invoked n :: l) = resumedPairs l := by
  simp [resumedPairs, List.filterMap_cons]

theorem resumedPairs_cons_resumed {V : Type} (n : String) (v : V)
    (l : List (Event V)) :
    resumedPairs (Event.resumed n v :: l) = (n, v) :: resumedPairs l := by
  simp [resumedPairs, List.filterMap_cons]

theorem resumedPairs_append {V : Type} (a b : List (Event V)) :
    resumedPairs (a ++ b) = resumedPairs a ++ resumedPairs b := by
  simp [resumedPairs, List.filterMap_append]

theorem resumedPairs_resumeEvents {V E : Type} (v : V)
    (pend : List (String × Handler V E)) :
    resumedPairs (resumeEvents v pend) = pend.map (fun p => (p.1, v)) := by
  induction pend with
  | nil => rfl
  | cons p pend ih => simp [resumeEvents, resumedPairs, List.filterMap_cons] at ih ⊢; exact ih

theorem resumedPairs_invokedOf {A V E : Type} (op : String)
    (pre : List (Layer A V E)) :
    resumedPairs (invokedOf op pre : List (Event V)) = [] := by
  induction pre with
  | nil => rfl
  | cons L pre ih =>
    cases hlk : L.ops.lookup op with
    | none => rw [invokedOf_cons_absent op L pre hlk]; exact ih
    | some f =>
      rw [invokedOf_cons_present op L pre f hlk]
      simp [resumedPairs, List.filterMap_cons] at ih ⊢
      exact ih

/-- Shape of any finished dispatch walk: `attemptedLayers` grows by a block
`tail`; the first-drive events mirror `tail` exactly; `tail` is an initial
segment of the names of all implementing layers; and the
unhandled-operation throw happens only when `tail` covers every implementing
layer. -/
theorem loop_trace {A V E : Type} (op : String) (args : A) :
    ∀ (layers : List (Layer A V E)) (att : List String)
      (pend : List (String × Handler V E)) (ev : List (Event V)),
      ∃ tail : List String,
        (loop op args layers att pend ev).attempted = att ++ tail ∧
        invokedNames (loop op args layers att pend ev).events =
          invokedNames ev ++ tail ∧
        (∃ rest, attemptedOf op layers = tail ++ rest) ∧
        (∀ err, (loop op args layers att pend ev).result = .thrown err →
          tail = attemptedOf op layers) := by
  intro layers
  induction layers with
  | nil =>
    intro att pend ev
    exact ⟨[], by simp [loop], by simp [loop], ⟨[], by simp [attemptedOf_nil]⟩,
      fun err _ => by simp [attemptedOf_nil]⟩
  | cons L rest ih =>
    intro att pend ev
    cases hlk : L.ops.lookup op with
    | none =>
      obtain ⟨tail, h1, h2, ⟨r, h3⟩, h4⟩ := ih att pend ev
      refine ⟨tail, ?_, ?_, ⟨r, ?_⟩, ?_⟩
      · simpa only [loop, hlk] using h1
      · simpa only [loop, hlk] using h2
      · rw [attemptedOf_cons_absent op L rest hlk]; exact h3
      · intro err herr
        rw [attemptedOf_cons_absent op L rest hlk]
        exact h4 err (by simpa only [loop, hlk] using herr)
    | some f =>
      cases hfst : (f args).first with
      | error e =>
        refine ⟨[L.name], ?_, ?_,
          ⟨attemptedOf op rest, by rw [attemptedOf_cons_present op L rest f hlk]; rfl⟩, ?_⟩
        · simp [loop, hlk, hfst]
        · simp [loop, hlk, hfst, invokedNames_append, invokedNames_singleton]
        · intro err herr
          simp only [loop, hlk, hfst] at herr
          exact absurd herr (by simp)
      | ok dr =>
        obtain ⟨done, result⟩ := dr
        cases done with
        | true =>
          cases result with
          | none =>
            obtain ⟨tail, h1, h2, ⟨r, h3⟩, h4⟩ :=
              ih (att ++ [L.name]) pend (ev ++ [Event.invoked L.name])
            refine ⟨L.name :: tail, ?_, ?_, ⟨r, ?_⟩, ?_⟩
            · simp only [loop, hlk, hfst]
              rw [h1, List.append_assoc]; rfl
            · simp only [loop, hlk, hfst]
              rw [h2, invokedNames_append, invokedNames_singleton]
              simp
            · rw [attemptedOf_cons_present op L rest f hlk, h3]; rfl
            · intro err herr
              rw [attemptedOf_cons_present op L rest f hlk]
              have := h4 err (by simpa only [loop, hlk, hfst] using herr)
              rw [this]
          | some v =>
            cases hre : firstResumeError v pend with
            | none =>
              refine ⟨[L.name], ?_, ?_,
                ⟨attemptedOf op rest, by rw [attemptedOf_cons_present op L rest f hlk]; rfl⟩, ?_⟩
              · simp [loop, hlk, hfst, hre]
              · simp [loop, hlk, hfst, hre, invokedNames_append,
                  invokedNames_singleton, invokedNames_cons_invoked,
                  invokedNames_resumeEvents]
              · intro err herr
                simp only [loop, hlk, hfst, hre] at herr
                exact absurd herr (by simp)
            | some e =>
              refine ⟨[L.name], ?_, ?_,
                ⟨attemptedOf op rest, by rw [attemptedOf_cons_present op L rest f hlk]; rfl⟩, ?_⟩
              · simp [loop, hlk, hfst, hre]
              · simp [loop, hlk, hfst, hre, invokedNames_append,
                  invokedNames_singleton, invokedNames_cons_invoked,
                  invokedNames_resumeEvents]
              · intro err herr
                simp only [loop, hlk, hfst, hre] at herr
                exact absurd herr (by simp)
        | false =>
          cases result with
          | none =>
            obtain ⟨tail, h1, h2, ⟨r, h3⟩, h4⟩ :=
              ih (att ++ [L.name]) (pend ++ [(L.name, f args)])
                (ev ++ [Event.invoked L.name])
            refine ⟨L.name :: tail, ?_, ?_, ⟨r, ?_⟩, ?_⟩
            · simp only [loop, hlk, hfst]
              rw [h1, List.append_assoc]; rfl
            · simp only [loop, hlk, hfst]
              rw [h2, invokedNames_append, invokedNames_singleton]
              simp
            · rw [attemptedOf_cons_present op L rest f hlk, h3]; rfl
            · intro err herr
              rw [attemptedOf_cons_present op L rest f hlk]
              have := h4 err (by simpa only [loop, hlk, hfst] using herr)
              rw [this]
          | some e =>
            refine ⟨[L.name], ?_, ?_,
              ⟨attemptedOf op rest, by rw [attemptedOf_cons_present op L rest f hlk]; rfl⟩, ?_⟩
            · simp [loop, hlk, hfst]
            · simp [loop, hlk, hfst, invokedNames_append, invokedNames_singleton]
            · intro err herr
              simp only [loop, hlk, hfst] at herr
              exact absurd herr (by simp)

/-- The discriminated result never carries `undefined`: `[true, undefined]`
and `[false, undefined]` are unreachable for every dispatch walk. -/
theorem loop_result_defined {A V E : Type} (op : String) (args : A) :
    ∀ (layers : List (Layer A V E)) (att : List String)
      (pend : List (String × Handler V E)) (ev : List (Event V)),
      (loop op args layers att pend ev).result ≠ CallResult.success none ∧
      (loop op args layers att pend ev).result ≠ CallResult.failure none := by
  intro layers
  induction layers with
  | nil => intro att pend ev; constructor <;> simp [loop]
  | cons L rest ih =>
    intro att pend ev
    cases hlk : L.ops.lookup op with
    | none => simpa only [loop, hlk] using ih att pend ev
    | some f =>
      cases hfst : (f args).first with
      | error e => constructor <;> simp [loop, hlk, hfst]
      | ok dr =>
        obtain ⟨done, result⟩ := dr
        cases done with
        | true =>
          cases result with
          | none =>
            have h := ih (att ++ [L.name]) pend (ev ++ [Event.invoked L.name])
            simpa only [loop, hlk, hfst] using h
          | some v =>
            cases hre : firstResumeError v pend with
            | none => constructor <;> simp [loop, hlk, hfst, hre]
            | some e => constructor <;> simp [loop, hlk, hfst, hre]
        | false =>
          cases result with
          | none =>
            have h := ih (att ++ [L.name]) (pend ++ [(L.name, f args)])
              (ev ++ [Event.invoked L.name])
            simpa only [loop, hlk, hfst] using h
          | some e => constructor <;> simp [loop, hlk, hfst]

theorem not_mem_append_singleton (acc : List String) (x a : String) :
    decide (a ∉ acc ++ [x]) = ((a != x) && decide (a ∉ acc)) := by
  by_cases h1 : a ∈ acc <;> by_cases h2 : a = x <;>
    simp [h1, h2, List.mem_append]

theorem mem_specDedupFirst : ∀ (l : List String) (y : String),
    y ∈ specDedupFirst l ↔ y ∈ l
  | [], y => by simp [specDedupFirst]
  | x :: xs, y => by
    rw [specDedupFirst]
    by_cases hyx : y = x
    · subst hyx; simp
    · simp only [List.mem_cons,
        mem_specDedupFirst (xs.filter (fun z => z != x)) y, List.mem_filter]
      constructor
      · rintro (h | ⟨h, _⟩)
        · exact Or.inl h
        · exact Or.inr h
      · rintro (h | h)
        · exact Or.inl h
        · exact Or.inr ⟨h, bne_iff_ne.mpr hyx⟩
termination_by l _ => l.length
decreasing_by
  simp only [List.length_cons]
  exact Nat.lt_succ_of_le (List.length_filter_le _ _)

theorem nodup_specDedupFirst : ∀ l : List String, (specDedupFirst l).Nodup
  | [] => by simp [specDedupFirst]
  | x :: xs => by
    rw [specDedupFirst]
    refine List.nodup_cons.mpr ⟨?_, nodup_specDedupFirst _⟩
    intro hx
    have hmem := (mem_specDedupFirst _ _).mp hx
    have hf := (List.mem_filter.mp hmem).2
    simp [bne_self_eq_false] at hf
termination_by l => l.length
decreasing_by
  simp only [List.length_cons]
  exact Nat.lt_succ_of_le (List.length_filter_le _ _)

theorem foldl_insertSet : ∀ (l acc : List String),
    l.foldl insertSet acc =
      acc ++ specDedupFirst (l.filter (fun y => decide (y ∉ acc)))
  | [], acc => by simp [specDedupFirst]
  | x :: xs, acc => by
    rw [List.foldl_cons]
    by_cases hc : x ∈ acc
    · rw [show insertSet acc x = acc from if_pos hc]
      rw [foldl_insertSet xs acc]
      congr 1
      rw [List.filter_cons]
      simp [hc]
    · rw [show insertSet acc x = acc ++ [x] from if_neg hc]
      rw [foldl_insertSet xs (acc ++ [x]), List.append_assoc,
        List.singleton_append]
      congr 1
      rw [List.filter_cons]
      simp only [hc, not_false_iff, decide_eq_true_eq, if_pos]
      rw [specDedupFirst]
      congr 1
      rw [List.filter_filter]
      exact congrArg specDedupFirst
        (List.filter_congr fun a _ => not_mem_append_singleton acc x a)

theorem mem_opNames_foldl {A V E : Type} (layers : List (Layer A V E)) :
    ∀ (init : List String) (x : String),
      (x ∈ layers.foldl (fun acc L => acc ++ opNames L) init ↔
        x ∈ init ∨ ∃ L ∈ layers, x ∈ opNames L) := by
  induction layers with
  | nil => intro init x; simp
  | cons L rest ih =>
    intro init x
    rw [List.foldl_cons, ih]
    simp [List.mem_append, List.exists_mem_cons_iff, or_assoc]

/-- Shape of a call whose first non-skipping layer `L` terminates its first
drive with a defined value `v`: the walk stops at `L`, all pending handlers
accumulated from the earlier suspended layers are resumed with `v`, and the
result is `[true, v]` unless some resumption throws, in which case that
exception is the call's rejection. -/
theorem resolve_shape {A V E : Type} (op : String) (args : A)
    (pre post : List (Layer A V E)) (L : Layer A V E) (f : A → Handler V E)
    (v : V) (hpre : ∀ M ∈ pre, skipsOp op args M)
    (hlk : L.ops.lookup op = some f)
    (hfst : (f args).first = .ok (true, some v)) :
    callOp (pre ++ L :: post) op args =
      ⟨(match firstResumeError v (pendingOf op args pre) with
        | some e => CallResult.exn e
        | none => CallResult.success (some v)),
        attemptedOf op pre ++ [L.name],
        invokedOf op pre ++ [Event.invoked L.name] ++
          resumeEvents v (pendingOf op args pre)⟩ := by
  unfold callOp
  rw [loop_skips op args pre (L :: post) [] [] [] hpre]
  simp only [List.nil_append, loop, hlk, hfst]
  cases hre : firstResumeError v (pendingOf op args pre) <;> simp [hre]

/-! The claim theorems. -/

/-- Claim C2: when a layer suspends with a defined payload `e` (signals an
error) after every earlier layer passed control onward, the call returns
`[false, e]` immediately: the trace shows no later layer invoked and no
resumption at all, so handlers previously added to the pending list are
abandoned and propagation is skipped entirely. -/
theorem yield_error_returns_failure {A V E : Type} (op : String) (args : A)
    (pre post : List (Layer A V E)) (L : Layer A V E) (f : A → Handler V E)
    (e : V) (hpre : ∀ M ∈ pre, skipsOp op args M)
    (hlk : L.ops.lookup op = some f)
    (hfst : (f args).first = .ok (false, some e)) :
    callOp (pre ++ L :: post) op args =
      ⟨.failure (some e), attemptedOf op pre ++ [L.name],
        invokedOf op pre ++ [Event.invoked L.name]⟩ ∧
    resumedPairs (callOp (pre ++ L :: post) op args).events = [] := by
  have hmain : callOp (pre ++ L :: post) op args =
      ⟨.failure (some e), attemptedOf op pre ++ [L.name],
        invokedOf op pre ++ [Event.invoked L.name]⟩ := by
    unfold callOp
    rw [loop_skips op args pre (L :: post) [] [] [] hpre]
    simp only [List.nil_append, loop, hlk, hfst]
  refine ⟨hmain, ?_⟩
  rw [hmain]
  simp only [resumedPairs_append, resumedPairs_invokedOf]
  simp [resumedPairs]

/-- Witness for C2: a suspended cache layer followed by an error-yielding
layer produces `[false, 5]`, attempts exactly those two layers, and resumes
nothing. -/
theorem yield_error_returns_failure_witness :
    callOp [cacheLayer, errorLayer] "get" 0 =
      ⟨.failure (some 5), ["cache", "auth"],
        [Event.invoked "cache", Event.invoked "auth"]⟩ ∧
    resumedPairs (callOp [cacheLayer, errorLayer] "get" 0).events = [] := by
  have h := yield_error_returns_failure "get" 0 [cacheLayer] [] errorLayer
    (fun _ => ⟨.ok (false, some 5), fun _ => .ok ()⟩) 5
    (by intro M hM; fin_cases hM; exact Or.inr rfl) rfl rfl
  exact ⟨h.1, h.2⟩

/-- Claim C4: if the operation's layer sublist is exhausted with every
attempted layer either opting out (terminal undefined) or suspending without
payload, the call throws an `Error` (it does not return a `[false, e]`
result) whose message carries the operation name and the identities of all
attempted layers, in order. -/
theorem exhausted_dispatch_throws_unhandled {A V E : Type} (op : String)
    (args : A) (layers : List (Layer A V E))
    (h : ∀ L ∈ layers, skipsOp op args L) :
    callOp layers op args =
      ⟨.thrown ⟨"Error", unhandledMessage op (attemptedOf op layers)⟩,
        attemptedOf op layers, invokedOf op layers⟩ := by
  have h1 := loop_skips op args layers [] [] [] [] h
  rw [List.append_nil] at h1
  unfold callOp
  rw [h1]
  simp [loop]

/-- Witness for C4: a layer without the operation, an opting-out layer and a
suspending layer exhaust the list; the call throws the unhandled-operation
`Error` naming `get` and the two attempted layers in order. -/
theorem exhausted_dispatch_throws_unhandled_witness :
    callOp [inertLayer, optOutLayer, cacheLayer] "get" 0 =
      ⟨.thrown ⟨"Error",
        "operation was not handled by any configured layers: get (attempted layers: optout, cache)"⟩,
        ["optout", "cache"],
        [Event.invoked "optout", Event.invoked "cache"]⟩ := by
  have h := exhausted_dispatch_throws_unhandled "get" 0
    [inertLayer, optOutLayer, cacheLayer] ?_
  · rw [h]; rfl
  · intro L hL
    fin_cases hL
    · exact trivial
    · exact Or.inl rfl
    · exact Or.inr rfl

/-- Claim C8: the operation-name set of the composed object is the union of
the own enumerable keys of all layers, deduplicated keeping the first
occurrence, in the order of the concatenation of each layer's own key
order. -/
theorem allOperations_dedup_first_occurrence {A V E : Type}
    (layers : List (Layer A V E)) :
    allOperations layers =
      specDedupFirst (layers.foldl (fun acc L => acc ++ opNames L) []) ∧
    (allOperations layers).Nodup ∧
    (∀ x, x ∈ allOperations layers ↔ ∃ L ∈ layers, x ∈ opNames L) := by
  have hdef : allOperations layers =
      specDedupFirst (layers.foldl (fun acc L => acc ++ opNames L) []) := by
    unfold allOperations
    rw [foldl_insertSet]
    rw [List.nil_append]
    congr 1
    rw [show (fun y => decide ((y : String) ∉ ([] : List String))) =
        fun _ => true from by funext y; simp]
    exact List.filter_true _
  refine ⟨hdef, ?_, ?_⟩
  · rw [hdef]; exact nodup_specDedupFirst _
  · intro x
    rw [hdef, mem_specDedupFirst, mem_opNames_foldl]
    simp

/-- Claim C9: the composition entry point returns a composed object for an
array of layers (exposing exactly the aggregated operation names and the
dispatch behaviour) and throws a `TypeError` for every non-array input. -/
theorem scaly_rejects_non_array {A V E : Type} :
    scaly (JSInput.nonArray : JSInput A V E) =
      .error ⟨"TypeError", "layers must be an array"⟩ ∧
    ∀ layers : List (Layer A V E),
      scaly (JSInput.array layers) =
        .ok ⟨allOperations layers, fun op args => callOp layers op args⟩ :=
  ⟨rfl, fun _ => rfl⟩

/-- Claim C10: no call ever resolves to `[true, undefined]` or
`[false, undefined]`: both result constructors are reached only behind the
definedness guards of the dispatch loop. -/
theorem call_never_returns_undefined {A V E : Type}
    (layers : List (Layer A V E)) (op : String) (args : A) :
    (callOp layers op args).result ≠ CallResult.success none ∧
    (callOp layers op args).result ≠ CallResult.failure none :=
  loop_result_defined op args layers [] [] []

/-- Counterexample to Claim C1 as stated: `storeLayer` terminates its first
drive with the defined value `7` (after `badCacheLayer`, which merely
suspends awaiting the value), yet the call does not return `[true, 7]` — the
pending handler's resumption throws, so the call rejects with `"boom"`. -/
theorem resolve_not_always_success :
    (storeLayer.ops.lookup "get").map (fun f => (f 0).first) =
      some (.ok (true, some 7)) ∧
    skipsOp "get" 0 badCacheLayer ∧
    (callOp [badCacheLayer, storeLayer] "get" 0).result = .exn "boom" ∧
    (callOp [badCacheLayer, storeLayer] "get" 0).result ≠
      .success (some 7) := by
  refine ⟨rfl, Or.inr rfl, rfl, fun h => ?_⟩
  rw [show (callOp [badCacheLayer, storeLayer] "get" 0).result =
      CallResult.exn "boom" from rfl] at h
  exact CallResult.noConfusion h

/-- Claim C1 (amended): if every layer before `L` passes control onward and
`L`'s handler terminates at its first drive with the defined value `v`, the
walk stops at `L` — no later layer is invoked (the trace is exactly the
earlier first drives, `L`'s first drive, and the resumption fan-out) — and
the call returns `[true, v]` provided no pending resumption throws; if one
does, that exception is the call's rejection. -/
theorem resolve_terminates_dispatch {A V E : Type} (op : String) (args : A)
    (pre post : List (Layer A V E)) (L : Layer A V E) (f : A → Handler V E)
    (v : V) (hpre : ∀ M ∈ pre, skipsOp op args M)
    (hlk : L.ops.lookup op = some f)
    (hfst : (f args).first = .ok (true, some v)) :
    (callOp (pre ++ L :: post) op args).attempted =
      attemptedOf op pre ++ [L.name] ∧
    (callOp (pre ++ L :: post) op args).events =
      invokedOf op pre ++ [Event.invoked L.name] ++
        resumeEvents v (pendingOf op args pre) ∧
    (firstResumeError v (pendingOf op args pre) = none →
      (callOp (pre ++ L :: post) op args).result = .success (some v)) ∧
    (∀ e, firstResumeError v (pendingOf op args pre) = some e →
      (callOp (pre ++ L :: post) op args).result = .exn e) := by
  rw [resolve_shape op args pre post L f v hpre hlk hfst]
  refine ⟨rfl, rfl, fun hn => ?_, fun e he => ?_⟩
  · rw [hn]
  · rw [he]

/-- Witness for C1 (amended): a suspended cache whose resumption succeeds, a
resolving store, and a later layer; the call returns `[true, 7]` having
attempted only the first two layers. -/
theorem resolve_terminates_dispatch_witness :
    (callOp [cacheLayer, storeLayer, optOutLayer] "get" 0).attempted =
      ["cache", "store"] ∧
    (callOp [cacheLayer, storeLayer, optOutLayer] "get" 0).result =
      .success (some 7) := by
  have h := resolve_terminates_dispatch "get" 0 [cacheLayer] [optOutLayer]
    storeLayer (fun _ => ⟨.ok (true, some 7), fun _ => .ok ()⟩) 7
    (by intro M hM; fin_cases hM; exact Or.inr rfl) rfl rfl
  exact ⟨h.1.trans rfl, h.2.2.1 rfl⟩

/-- Claim C3: when `L` resolves `v` after shallower layers suspended
awaiting the value, the resumption events of the whole call are exactly one
`(layer, v)` pair per pending handler, in pending order — each pending
handler is resumed with exactly `v`, exactly once, and these resumptions
appear in the trace before the call completes. -/
theorem pending_resumed_exactly_once {A V E : Type} (op : String) (args : A)
    (pre post : List (Layer A V E)) (L : Layer A V E) (f : A → Handler V E)
    (v : V) (hpre : ∀ M ∈ pre, skipsOp op args M)
    (hlk : L.ops.lookup op = some f)
    (hfst : (f args).first = .ok (true, some v)) :
    resumedPairs (callOp (pre ++ L :: post) op args).events =
      (pendingOf op args pre).map (fun p => (p.1, v)) ∧
    (callOp (pre ++ L :: post) op args).events =
      invokedOf op pre ++ [Event.invoked L.name] ++
        resumeEvents v (pendingOf op args pre) := by
  rw [resolve_shape op args pre post L f v hpre hlk hfst]
  refine ⟨?_, rfl⟩
  simp only [resumedPairs_append, resumedPairs_invokedOf,
    resumedPairs_cons_invoked, resumedPairs_resumeEvents]
  simp [resumedPairs]

/-- Witness for C3: two suspended caches before the resolving store are each
resumed exactly once with the resolved value 7, in order. -/
theorem pending_resumed_exactly_once_witness :
    resumedPairs (callOp [cacheLayer, badCacheLayer, storeLayer] "get" 0).events =
      [("cache", 7), ("badcache", 7)] := by
  have h := pending_resumed_exactly_once "get" 0 [cacheLayer, badCacheLayer]
    [] storeLayer (fun _ => ⟨.ok (true, some 7), fun _ => .ok ()⟩) 7
    (by intro M hM; fin_cases hM <;> exact Or.inr rfl) rfl rfl
  exact h.1.trans rfl

/-- Counterexample to Claim C5 as stated: with a first layer that resolves
immediately and a second implementing layer, the `attemptedLayers` trace is
`["store"]`, not the full restriction `["store", "cache"]` of the layer list
to implementing layers. -/
theorem attempted_not_full_restriction :
    attemptedOf "get" ([storeLayer, cacheLayer] : List (Layer Nat Nat String)) =
      ["store", "cache"] ∧
    (callOp [storeLayer, cacheLayer] "get" 0).attempted = ["store"] ∧
    (callOp [storeLayer, cacheLayer] "get" 0).attempted ≠
      attemptedOf "get" [storeLayer, cacheLayer] := by
  refine ⟨rfl, rfl, fun h => ?_⟩
  rw [show (callOp [storeLayer, cacheLayer] "get" 0).attempted =
      ["store"] from rfl] at h
  rw [show attemptedOf "get"
      ([storeLayer, cacheLayer] : List (Layer Nat Nat String)) =
      ["store", "cache"] from rfl] at h
  exact absurd h (by simp)

/-- Claim C5 (amended): for every call, the sequence of layers actually
invoked (equal to the `attemptedLayers` trace, and mirrored exactly by the
first-drive events) is an initial segment of the original layer list
restricted to layers implementing the operation — the full restriction
whenever the call ends in the unhandled-operation throw; a layer lacking the
operation never appears in the trace. -/
theorem attempted_prefix_of_implementing {A V E : Type} (op : String)
    (args : A) (layers : List (Layer A V E)) :
    (∃ rest, attemptedOf op layers =
      (callOp layers op args).attempted ++ rest) ∧
    invokedNames (callOp layers op args).events =
      (callOp layers op args).attempted ∧
    (∀ err, (callOp layers op args).result = .thrown err →
      (callOp layers op args).attempted = attemptedOf op layers) ∧
    (∀ n ∈ (callOp layers op args).attempted,
      ∃ L ∈ layers, L.name = n ∧ (L.ops.lookup op).isSome = true) := by
  obtain ⟨tail, h1, h2, ⟨r, h3⟩, h4⟩ := loop_trace op args layers [] [] []
  simp only [callOp]
  rw [List.nil_append] at h1
  have h2' : invokedNames (loop op args layers [] [] []).events = tail := by
    rw [h2]; rfl
  refine ⟨⟨r, by rw [h1, h3]⟩, by rw [h2', h1], fun err herr => by
    rw [h1]; exact h4 err herr, ?_⟩
  intro n hn
  rw [h1] at hn
  have hmem : n ∈ attemptedOf op layers := by
    rw [h3]; exact List.mem_append_left r hn
  simp only [attemptedOf] at hmem
  obtain ⟨L, hL, hfL⟩ := List.mem_filterMap.mp hmem
  cases hlk : L.ops.lookup op with
  | none => rw [hlk] at hfL; exact Option.noConfusion hfL
  | some f =>
    rw [hlk] at hfL
    refine ⟨L, hL, ?_, by rw [hlk]; rfl⟩
    injection hfL

/-- Witness for C5 (amended): a call that exhausts the list has a trace
equal to the full restriction, and its first-drive events mirror it. -/
theorem attempted_prefix_of_implementing_witness :
    (callOp [inertLayer, optOutLayer] "get" 0).attempted =
      attemptedOf "get" [inertLayer, optOutLayer] ∧
    invokedNames (callOp [inertLayer, optOutLayer] "get" 0).events =
      (callOp [inertLayer, optOutLayer] "get" 0).attempted := by
  have h := attempted_prefix_of_implementing "get" 0
    [inertLayer, optOutLayer]
  exact ⟨h.2.2.1 ⟨"Error", unhandledMessage "get" ["optout"]⟩ rfl, h.2.1⟩

/-- Claim C6: a handler exception is never caught or converted by the
engine — an exception at the first drive becomes the call's rejection, and
an exception raised by a pending handler during the propagation fan-out
becomes the call's rejection even though a success value was already
decided. -/
theorem handler_exception_propagates {A V E : Type} :
    (∀ (op : String) (args : A) (pre post : List (Layer A V E))
      (L : Layer A V E) (f : A → Handler V E) (e : E),
      (∀ M ∈ pre, skipsOp op args M) → L.ops.lookup op = some f →
      (f args).first = .error e →
      (callOp (pre ++ L :: post) op args).result = .exn e) ∧
    (∀ (op : String) (args : A) (pre post : List (Layer A V E))
      (L : Layer A V E) (f : A → Handler V E) (v : V) (e : E),
      (∀ M ∈ pre, skipsOp op args M) → L.ops.lookup op = some f →
      (f args).first = .ok (true, some v) →
      firstResumeError v (pendingOf op args pre) = some e →
      (callOp (pre ++ L :: post) op args).result = .exn e) := by
  constructor
  · intro op args pre post L f e hpre hlk hfst
    unfold callOp
    rw [loop_skips op args pre (L :: post) [] [] [] hpre]
    simp only [List.nil_append, loop, hlk, hfst]
  · intro op args pre post L f v e hpre hlk hfst hre
    rw [resolve_shape op args pre post L f v hpre hlk hfst]
    rw [hre]

/-- Witness for C6: a first-drive exception rejects the call with "crash";
a resumption exception during propagation rejects with "boom" even though
the store already resolved 7. -/
theorem handler_exception_propagates_witness :
    (callOp [throwLayer] "get" 0).result = .exn "crash" ∧
    (callOp [badCacheLayer, storeLayer] "get" 0).result = .exn "boom" := by
  constructor
  · exact (@handler_exception_propagates Nat Nat String).1 "get" 0 [] []
      throwLayer (fun _ => ⟨.error "crash", fun _ => .ok ()⟩) "crash"
      (by intro M hM; exact absurd hM (List.not_mem_nil M)) rfl rfl
  · exact (@handler_exception_propagates Nat Nat String).2 "get" 0
      [badCacheLayer] [] storeLayer
      (fun _ => ⟨.ok (true, some 7), fun _ => .ok ()⟩) 7 "boom"
      (by intro M hM; fin_cases hM; exact Or.inr rfl) rfl rfl rfl

/-- Claim C7: a layer that terminates its first drive with an undefined
value (opts out) lets dispatch continue with the next layer, leaving the
pending list unchanged (its handler is not added), contributing nothing to
the pending entries of any walk, and — when a deeper layer later resolves —
never being resumed (the trace of an opt-out followed by a resolver holds no
resumption at all). -/
theorem optout_continues_without_pending {A V E : Type} :
    (∀ (op : String) (args : A) (L : Layer A V E) (f : A → Handler V E)
      (rest : List (Layer A V E)) (att : List String)
      (pend : List (String × Handler V E)) (ev : List (Event V)),
      L.ops.lookup op = some f → (f args).first = .ok (true, none) →
      loop op args (L :: rest) att pend ev =
        loop op args rest (att ++ [L.name]) pend
          (ev ++ [Event.invoked L.name])) ∧
    (∀ (op : String) (args : A) (pre : List (Layer A V E)) (L : Layer A V E)
      (f : A → Handler V E),
      L.ops.lookup op = some f → (f args).first = .ok (true, none) →
      pendingOf op args (pre ++ [L]) = pendingOf op args pre) ∧
    (∀ (op : String) (args : A) (L R : Layer A V E) (f g : A → Handler V E)
      (v : V),
      L.ops.lookup op = some f → (f args).first = .ok (true, none) →
      R.ops.lookup op = some g → (g args).first = .ok (true, some v) →
      callOp [L, R] op args =
        ⟨.success (some v), [L.name, R.name],
          [Event.invoked L.name, Event.invoked R.name]⟩) := by
  refine ⟨?_, ?_, ?_⟩
  · intro op args L f rest att pend ev hlk hfst
    simp only [loop, hlk, hfst]
  · intro op args pre L f hlk hfst
    simp [pendingOf, List.filterMap_append, List.filterMap_cons, hlk, hfst]
  · intro op args L R f g v hlk hfst hlkR hfstR
    unfold callOp
    simp [loop, hlk, hfst, hlkR, hfstR, firstResumeError, resumeEvents]

/-- Witness for C7: an opting-out layer then a resolving layer: the call
succeeds with 7, both layers are attempted, and nothing is resumed; the
opt-out contributes no pending entry after a suspended cache either. -/
theorem optout_continues_without_pending_witness :
    callOp [optOutLayer, storeLayer] "get" 0 =
      ⟨.success (some 7), ["optout", "store"],
        [Event.invoked "optout", Event.invoked "store"]⟩ ∧
    pendingOf "get" 0 [cacheLayer, optOutLayer] =
      pendingOf "get" 0 [cacheLayer] := by
  constructor
  · exact (@optout_continues_without_pending Nat Nat String).2.2 "get" 0
      optOutLayer storeLayer (fun _ => ⟨.ok (true, none), fun _ => .ok ()⟩)
      (fun _ => ⟨.ok (true, some 7), fun _ => .ok ()⟩) 7 rfl rfl rfl rfl
  · exact (@optout_continues_without_pending Nat Nat String).2.1 "get" 0
      [cacheLayer] optOutLayer
      (fun _ => ⟨.ok (true, none), fun _ => .ok ()⟩) rfl rfl

end Scaly
